import Mathlib

/-!
Verification of the author-identity reconciliation tool (fix-repo-authors.py).

The Python source is shallowly embedded below.  Pure text processing
(`get_all_authors`, `user_prompt`) is translated character-for-character
over `List Char`; the stateful git/filter-repo workflow is translated as
explicit state passing over a `WorkingCopy` record, with the behaviour of
the external tools (`git`, `git-filter-repo`) modelled from the spec's
interface description, since those tools are outside the repository.
-/

/-! ## Text primitives shared by the embedding

Python `str.strip()` removes leading and trailing whitespace.  We model the
ASCII whitespace characters it strips (the full Unicode set is irrelevant to
this program's data, which is git command output). -/

def isPySpace (c : Char) : Bool :=
  c = ' ' || c = '\t' || c = '\n' || c = '\r' || c = Char.ofNat 11 || c = Char.ofNat 12

/-- Python `s.strip()`: drop leading and trailing whitespace characters. -/
def pyStrip (s : List Char) : List Char :=
  ((s.dropWhile isPySpace).reverse.dropWhile isPySpace).reverse

/-- Python `s.split(sep)` for a one-character separator: splits at every
occurrence of `sep`; the empty string splits to `[""]`. -/
def pySplit (sep : Char) : List Char → List (List Char)
  | [] => [[]]
  | c :: rest =>
    if c = sep then [] :: pySplit sep rest
    else
      match pySplit sep rest with
      | [] => [[c]]
      | h :: t => (c :: h) :: t

/-! ## GitClient.get_all_authors (source lines 153-170)

`git shortlog -sne` output is decoded, stripped, split on newlines; each
line is split on tabs and indexed at `[1]` (`count_removed`), then matched
against the regex `(.*) <(.*)>` with `re.fullmatch`; non-matching lines are
dropped. Python's `[1]` raises `IndexError` when the split yields fewer
than two parts; we model that exception as `Except.error ()`. -/

/-- One element of the `count_removed` comprehension:
`author.split("\t")[1]`, with `IndexError` as `Except.error`. -/
def count_removed (line : List Char) : Except Unit (List Char) :=
  match pySplit '\t' line with
  | _ :: x :: _ => Except.ok x
  | _ => Except.error ()

/-- The whole `count_removed` list comprehension: the first `IndexError`
aborts the call. -/
def count_removed_all : List (List Char) → Except Unit (List (List Char))
  | [] => Except.ok []
  | l :: ls =>
    match count_removed l, count_removed_all ls with
    | Except.ok x, Except.ok xs => Except.ok (x :: xs)
    | Except.error e, _ => Except.error e
    | _, Except.error e => Except.error e

/-- Does the two-character sequence `x y` occur consecutively in the list? -/
def hasPairOf (x y : Char) : List Char → Bool
  | c1 :: c2 :: rest => (c1 = x && c2 = y) || hasPairOf x y (c2 :: rest)
  | _ => false

/-- Split a string at the LAST occurrence of the two-character sequence
`" <"`, returning the parts before and after it.  This is where the greedy
first group of `re.fullmatch("(.*) <(.*)>", s)` ends: the regex engine
maximises group 1, so group 1 runs up to the final `" <"`. -/
def lastSepSplit : List Char → Option (List Char × List Char)
  | [] => none
  | c :: rest =>
    match lastSepSplit rest with
    | some (b, a) => some (c :: b, a)
    | none =>
      if c = ' ' ∧ rest.head? = some '<' then some ([], rest.tail) else none

/-- Embedding of `re.fullmatch("(.*) <(.*)>", s)`: the whole string must be
group1 ++ " <" ++ group2 ++ ">", group 1 greedy (so the split is at the last
`" <"`), and `.` matches no newline, so any `\n` in `s` defeats the match. -/
def fullmatchNameEmail (s : List Char) : Option (List Char × List Char) :=
  if '\n' ∈ s then none
  else
    match lastSepSplit s with
    | some (pre, post) =>
      if post.getLast? = some '>' then some (pre, post.dropLast) else none
    | none => none

/-- GitClient.get_all_authors, as a function of the decoded stdout of
`git shortlog -sne`.  Returns the parsed (name, email) records, or an
error when any line lacks a tab (Python `IndexError` on `split("\t")[1]`). -/
def get_all_authors (stdout : List Char) : Except Unit (List (List Char × List Char)) :=
  match count_removed_all (pySplit '\n' (pyStrip stdout)) with
  | Except.error e => Except.error e
  | Except.ok cr => Except.ok ((cr.map fullmatchNameEmail).filterMap id)

/-! ## user_prompt (source lines 28-42)

The re-prompt loop is `while not answer.isnumeric() and answer not in option_count`.
`answer` is a `str` and `option_count` a `range` of `int`s, so the membership
test compares a string with integers and is always false; the loop condition
is therefore just `not answer.isnumeric()`.  After the loop,
`prompt_options[int(answer)]` raises `KeyError` when the number is outside
`1..len(options)`.  We model the operator's successive inputs as a list of
strings; an exhausted list means the operator never supplies a numeric
answer (the real program would block forever re-prompting). -/

/-- Python `str.isnumeric` restricted to ASCII input: nonempty and all
characters are decimal digits. -/
def isnumeric (s : List Char) : Bool :=
  !s.isEmpty && s.all Char.isDigit

/-- Python `int(s)` for a string of ASCII decimal digits. -/
def pyInt (s : List Char) : Nat :=
  s.foldl (fun n c => 10 * n + (c.toNat - 48)) 0

/-- Outcome of `user_prompt`: a chosen value, a `KeyError` on the
`prompt_options[int(answer)]` lookup, or blocking forever for more input. -/
inductive PromptOutcome (T : Type) where
  | ok (t : T)
  | keyError
  | noInput
deriving DecidableEq, Repr

/-- The `prompt_options` dict: `dict(zip(range(1, len(options)+1), options.keys()))`. -/
def prompt_options (labels : List String) : List (Nat × String) :=
  List.zip (List.range' 1 labels.length 1) labels

/-- user_prompt: keep reading inputs until one is numeric, then look the
number up in `prompt_options` and the resulting label up in `options`
(a `KeyError` when the number is out of range). The options dict is
modelled as an association list in insertion order. -/
def user_prompt (options : List (String × T)) : List (List Char) → PromptOutcome T
  | [] => PromptOutcome.noInput
  | answer :: rest =>
    if isnumeric answer then
      match List.lookup (pyInt answer) (prompt_options (options.map Prod.fst)) with
      | some label =>
        match List.lookup label options with
        | some v => PromptOutcome.ok v
        | none => PromptOutcome.keyError
      | none => PromptOutcome.keyError
    else user_prompt options rest

/-! ## The repository model

`GitRepo` (source lines 91-100) is the repository handle; `__post_init__`
sets `origin` to `ssh_url`.  The state of a cloned working copy on disk is
not a Python object; we model it as a `WorkingCopy` record holding the
authorship records of the history and the configured origin remote
(`none` when no origin remote is configured, e.g. after git-filter-repo
detaches it). -/

structure GitRepo where
  name : String
  ssh_url : String
  origin : String
  names_updated : List String
  emails_updated : List String
deriving DecidableEq, Repr

/-- The dataclass constructor followed by `__post_init__`:
`origin` is initialised to `ssh_url`, the audit logs to `[]`. -/
def GitRepo.make (name ssh_url : String) : GitRepo :=
  ⟨name, ssh_url, ssh_url, [], []⟩

/-- State of one cloned working copy: the author records of its history and
the currently configured origin remote (if any). -/
structure WorkingCopy where
  authors : List (String × String)
  origin : Option String
deriving DecidableEq, Repr

/-- Modelled from the spec: `git clone` materialises the remote history and
configures origin as the clone URL.  `history` stands for the remote
repository's author records. -/
def clone (repo : GitRepo) (history : List (String × String)) : WorkingCopy :=
  ⟨history, some repo.ssh_url⟩

/-- GitClient.set_origin (source lines 141-146): when an origin remote is
configured, `git remote set-url origin <url>`, otherwise
`git remote add origin <url>`; either way origin ends up equal to `url`. -/
def set_origin (url : String) (ws : WorkingCopy) : WorkingCopy :=
  { ws with origin := some url }

/-- The `--name-callback` rule passed to git-filter-repo by update_name
(source line 174): `return name if name != b"{old}" else b"{new}"`, with
the f-string interpolation of `old` and `new` read as their literal bytes. -/
def name_callback (old new x : String) : String :=
  if x ≠ old then x else new

/-- The `--email-callback` rule passed by update_email (source line 184):
`return email if email !=b"{old}" else b"{new}"`. -/
def email_callback (old new x : String) : String :=
  if x ≠ old then x else new

/-- Modelled from the spec: git-filter-repo with a name callback applies
the rule to every author name in history and detaches the origin remote as
a side effect of rewriting. -/
def git_filter_repo_names (old new : String) (ws : WorkingCopy) : WorkingCopy :=
  ⟨ws.authors.map (fun r => (name_callback old new r.1, r.2)), none⟩

/-- Modelled from the spec: git-filter-repo with an email callback, same
contract over the email field. -/
def git_filter_repo_emails (old new : String) (ws : WorkingCopy) : WorkingCopy :=
  ⟨ws.authors.map (fun r => (r.1, email_callback old new r.2)), none⟩

/-- GitClient.update_name (source lines 172-176): run git-filter-repo with
the name callback, then unconditionally restore origin to `repo.origin`. -/
def update_name (repo : GitRepo) (old new : String) (ws : WorkingCopy) : WorkingCopy :=
  set_origin repo.origin (git_filter_repo_names old new ws)

/-- GitClient.update_email (source lines 178-187): run git-filter-repo with
the email callback, then unconditionally restore origin to `repo.origin`. -/
def update_email (repo : GitRepo) (old new : String) (ws : WorkingCopy) : WorkingCopy :=
  set_origin repo.origin (git_filter_repo_emails old new ws)

/-- GitClient.push (source lines 148-151): set origin to `repo.origin`,
then `git push --all --force` (which changes no local state). -/
def push (repo : GitRepo) (ws : WorkingCopy) : WorkingCopy :=
  set_origin repo.origin ws

/-- Python `s.strip()` on a `String`. -/
def pyStripS (s : String) : String :=
  String.mk (pyStrip s.toList)

/-- GitClient.get_repo_list (source lines 111-119): each catalog entry
`(name, ssh_url)` is stripped and becomes a `GitRepo`. -/
def get_repo_list (entries : List (String × String)) : List GitRepo :=
  entries.map (fun e => GitRepo.make (pyStripS e.1) (pyStripS e.2))

/-! ## Single-repository workflow (source lines 190-250)

`handle_names` / `handle_emails` loop while the operator answers yes; each
accepted change supplies an (old, new) pair, applies the update and appends
the new value to the handle's audit log.  We model the operator's accepted
answers as the list of (old, new) pairs supplied before answering no. -/

/-- handle_names: one recursive pass over the operator's accepted
(old, new) pairs; each iteration runs update_name then appends `new` to
`names_updated`. -/
def handle_names_run : List (String × String) → GitRepo × WorkingCopy → GitRepo × WorkingCopy
  | [], s => s
  | (old, new) :: rest, (repo, ws) =>
    handle_names_run rest
      ({ repo with names_updated := repo.names_updated ++ [new] },
       update_name repo old new ws)

/-- handle_emails: same shape over the email field and `emails_updated`. -/
def handle_emails_run : List (String × String) → GitRepo × WorkingCopy → GitRepo × WorkingCopy
  | [], s => s
  | (old, new) :: rest, (repo, ws) =>
    handle_emails_run rest
      ({ repo with emails_updated := repo.emails_updated ++ [new] },
       update_email repo old new ws)

/-- update_repo (source lines 226-250): build the handle from the operator's
name and clone URL, clone, run the two confirm-loop passes, optionally push. -/
def update_repo_run (name clone_url : String) (history : List (String × String))
    (namePairs emailPairs : List (String × String)) (doPush : Bool) :
    GitRepo × WorkingCopy :=
  let repo := GitRepo.make name clone_url
  let ws := clone repo history
  let s1 := handle_names_run namePairs (repo, ws)
  let s2 := handle_emails_run emailPairs s1
  (s2.1, if doPush then push s2.1 s2.2 else s2.2)

/-- One mutating call of the reconciliation workflow. -/
inductive MutOp where
  | rename (old new : String)
  | reemail (old new : String)
deriving DecidableEq, Repr

/-- Apply one mutating call to a working copy via the client. -/
def apply_op (repo : GitRepo) (ws : WorkingCopy) : MutOp → WorkingCopy
  | MutOp.rename old new => update_name repo old new ws
  | MutOp.reemail old new => update_email repo old new ws

/-- Apply a sequence of mutating calls in order. -/
def apply_ops (repo : GitRepo) (ws : WorkingCopy) (ops : List MutOp) : WorkingCopy :=
  ops.foldl (apply_op repo) ws

/-! ## All-repositories workflow (source lines 253-311)

Each loop iteration unions the author records of every cloned repository
into a set of distinct names and a set of distinct emails, presents the
combined menu plus a quit sentinel, and applies the chosen rename or
re-email to every repository.  Note that `done = True` is only ever set
inside `for repo in repos:`, so with an empty repository list the quit
selection does not stop the loop. -/

/-- The operator's selection from the combined menu. -/
inductive Selection where
  | name (n : String)
  | email (e : String)
  | quit
deriving DecidableEq, Repr

/-- The `names` set accumulated from every repository's author records
(Python `set`; modelled as a deduplicated list). -/
def collect_names (wss : List WorkingCopy) : List String :=
  (wss.flatMap (fun ws => ws.authors.map Prod.fst)).dedup

/-- The `emails` set accumulated from every repository's author records. -/
def collect_emails (wss : List WorkingCopy) : List String :=
  (wss.flatMap (fun ws => ws.authors.map Prod.snd)).dedup

/-- The `for repo in repos:` application block: a name or email selection
is applied to every cloned repository; quit applies nothing. -/
def update_all_repos_step (sel : Selection) (v : String)
    (rs : List (GitRepo × WorkingCopy)) : List (GitRepo × WorkingCopy) :=
  match sel with
  | Selection.name n => rs.map (fun p => (p.1, update_name p.1 n v p.2))
  | Selection.email e => rs.map (fun p => (p.1, update_email p.1 e v p.2))
  | Selection.quit => rs

/-- The `while not done:` loop of update_all_repos, driven by the operator's
menu selections (`sels`) and replacement values (`vals`, consumed only for a
non-quit selection).  Returns the repositories and the unconsumed values on
termination; `none` means the operator input was exhausted with the loop
still running (the real program would block on the next prompt).  A quit
selection sets `done` inside `for repo in repos:`, so it only terminates the
loop when the repository list is nonempty. -/
def update_all_repos_loop : List Selection → List String → List (GitRepo × WorkingCopy) →
    Option (List (GitRepo × WorkingCopy) × List String)
  | [], _, _ => none
  | sel :: rest, vals, rs =>
    match sel with
    | Selection.quit =>
      if rs.isEmpty then update_all_repos_loop rest vals rs else some (rs, vals)
    | _ => update_all_repos_loop rest (vals.drop 1) (update_all_repos_step sel (vals.headD "") rs)

/-! ## Helper lemmas about the parsing pipeline -/

/-- Stripping a line `count ++ TAB ++ rest` whose count part has a
non-whitespace character and whose rest ends in a non-whitespace character
only strips the leading whitespace of the count part. -/
theorem pyStrip_tab_line (count rest : List Char)
    (hc : ∃ c ∈ count, isPySpace c = false)
    (hr : ∃ c t, rest.reverse = c :: t ∧ isPySpace c = false) :
    pyStrip (count ++ '\t' :: rest) = count.dropWhile isPySpace ++ '\t' :: rest := by
  obtain ⟨c, t, hrev, hcws⟩ := hr
  have hne2 : List.dropWhile isPySpace count ≠ [] := by
    intro hnil
    obtain ⟨x, hx, hxp⟩ := hc
    have := List.dropWhile_eq_nil_iff.mp hnil x hx
    rw [hxp] at this
    exact Bool.noConfusion this
  have h1 : List.dropWhile isPySpace (count ++ '\t' :: rest)
      = List.dropWhile isPySpace count ++ '\t' :: rest := by
    rw [List.dropWhile_append]
    simp [List.isEmpty_iff, hne2]
  have h2 : (List.dropWhile isPySpace count ++ '\t' :: rest).reverse
      = c :: (t ++ '\t' :: (List.dropWhile isPySpace count).reverse) := by
    simp [List.reverse_append, hrev]
  unfold pyStrip
  rw [h1, h2]
  simp [List.dropWhile_cons, hcws]
  simpa using (congrArg List.reverse hrev).symm

/-- `pySplit` on a separator-free string yields that one part. -/
theorem pySplit_of_not_mem (sep : Char) (l : List Char) (h : sep ∉ l) :
    pySplit sep l = [l] := by
  induction l with
  | nil => rfl
  | cons c t ih =>
    have hc : c ≠ sep := fun e => h (e ▸ List.mem_cons_self c t)
    have ht : sep ∉ t := fun m => h (List.mem_cons_of_mem _ m)
    simp [pySplit, hc, ih ht]

/-- `pySplit` peels off the part before the first separator. -/
theorem pySplit_append (sep : Char) (a b : List Char) (h : sep ∉ a) :
    pySplit sep (a ++ sep :: b) = a :: pySplit sep b := by
  induction a with
  | nil => simp [pySplit]
  | cons c t ih =>
    have hc : c ≠ sep := fun e => h (e ▸ List.mem_cons_self c t)
    have ht : sep ∉ t := fun m => h (List.mem_cons_of_mem _ m)
    simp [pySplit, hc, ih ht]

/-- Appending one character that cannot close the pair leaves `hasPairOf`
unchanged. -/
theorem hasPairOf_concat (x y z : Char) (hz : y ≠ z) :
    ∀ l : List Char, hasPairOf x y (l ++ [z]) = hasPairOf x y l := by
  intro l
  induction l with
  | nil => simp [hasPairOf]
  | cons c t ih =>
    cases t with
    | nil => simp [hasPairOf, Ne.symm hz]
    | cons c2 t2 =>
      rw [List.cons_append] at ih
      simp only [List.cons_append, hasPairOf, List.append_eq]
      rw [ih]

/-- A string with no occurrence of `" <"` has no separator to split at. -/
theorem lastSepSplit_eq_none (l : List Char) (h : hasPairOf ' ' '<' l = false) :
    lastSepSplit l = none := by
  induction l with
  | nil => rfl
  | cons c t ih =>
    cases t with
    | nil => simp [lastSepSplit]
    | cons c2 t2 =>
      have h2 : hasPairOf ' ' '<' (c2 :: t2) = false := by
        have h' := h
        simp [hasPairOf] at h'
        exact h'.2
      have hpair : ¬(c = ' ' ∧ (c2 :: t2).head? = some '<') := by
        rintro ⟨hc, hh⟩
        simp only [List.head?_cons, Option.some.injEq] at hh
        simp [hasPairOf, hc, hh] at h
      rw [lastSepSplit, ih h2]
      simp
      intro hc hc2
      exact hpair ⟨hc, by simp [hc2]⟩

/-- When the tail after the last `" <"` contains no further `" <"`, the
split lands exactly there. -/
theorem lastSepSplit_append (a b : List Char) (h : hasPairOf ' ' '<' b = false) :
    lastSepSplit (a ++ ' ' :: '<' :: b) = some (a, b) := by
  induction a with
  | nil =>
    have h1 : hasPairOf ' ' '<' ('<' :: b) = false := by
      cases b with
      | nil => rfl
      | cons b0 b' =>
        simp only [hasPairOf] at h ⊢
        simp [h]
    have h2 := lastSepSplit_eq_none _ h1
    rw [lastSepSplit.eq_def]
    simp [h2]
  | cons c a' ih =>
    rw [List.cons_append, lastSepSplit.eq_def]
    simp [ih]

/-- The regex embedding recovers exactly `(name, email)` from a well-formed
`name <email>` string, provided `email` contains no `" <"` (greediness) and
neither part contains a newline. -/
theorem fullmatch_pos (name email : List Char) (h1 : '\n' ∉ name) (h2 : '\n' ∉ email)
    (h3 : hasPairOf ' ' '<' email = false) :
    fullmatchNameEmail (name ++ ' ' :: '<' :: (email ++ ['>'])) = some (name, email) := by
  have hmem : '\n' ∉ (name ++ ' ' :: '<' :: (email ++ ['>'])) := by
    intro hm
    simp only [List.mem_append, List.mem_cons, List.mem_singleton] at hm
    rcases hm with h | h | h | h | h
    · exact h1 h
    · exact absurd h (by decide)
    · exact absurd h (by decide)
    · exact h2 h
    · exact absurd h (by decide)
  have h4 : hasPairOf ' ' '<' (email ++ ['>']) = false := by
    rw [hasPairOf_concat ' ' '<' '>' (by decide) email]
    exact h3
  unfold fullmatchNameEmail
  rw [if_neg hmem, lastSepSplit_append name (email ++ ['>']) h4]
  simp [List.getLast?_concat, List.dropLast_concat]

/-- `pySplit` always yields at least one part. -/
theorem pySplit_ne_nil (sep : Char) (l : List Char) : pySplit sep l ≠ [] := by
  cases l with
  | nil => simp [pySplit]
  | cons c t =>
    by_cases hc : c = sep
    · simp [pySplit, hc]
    · cases hsp : pySplit sep t with
      | nil => simp [pySplit, hc, hsp]
      | cons h tt => simp [pySplit, hc, hsp]

/-- Every character of the first `pySplit` part comes from the input. -/
theorem head_pySplit_subset (sep : Char) (l : List Char) :
    ∀ c ∈ (pySplit sep l).headD [], c ∈ l := by
  induction l with
  | nil => simp [pySplit]
  | cons c0 t ih =>
    intro c hcmem
    by_cases hc : c0 = sep
    · simp [pySplit, hc] at hcmem
    · cases hsp : pySplit sep t with
      | nil => exact absurd hsp (pySplit_ne_nil sep t)
      | cons h tt =>
        rw [pySplit.eq_def] at hcmem
        simp only [hc, if_false, hsp] at hcmem
        simp only [List.headD_cons, List.mem_cons] at hcmem
        rcases hcmem with rfl | hmem
        · exact List.mem_cons_self _ _
        · refine List.mem_cons_of_mem _ (ih c ?_)
          rw [hsp]
          exact hmem

/-- Characters surviving `pyStrip` come from the input. -/
theorem mem_of_mem_pyStrip (s : List Char) (c : Char) (h : c ∈ pyStrip s) : c ∈ s := by
  unfold pyStrip at h
  rw [List.mem_reverse] at h
  have h2 := (List.dropWhile_sublist isPySpace).subset h
  rw [List.mem_reverse] at h2
  exact (List.dropWhile_sublist isPySpace).subset h2

/-- A stdout containing no tab at all makes get_all_authors raise
(the `IndexError` of `author.split("\t")[1]` on its first line). -/
theorem get_all_authors_no_tab (stdout : List Char) (h : '\t' ∉ stdout) :
    get_all_authors stdout = Except.error () := by
  obtain ⟨L0, rest, hL⟩ : ∃ L0 rest, pySplit '\n' (pyStrip stdout) = L0 :: rest := by
    cases hsp : pySplit '\n' (pyStrip stdout) with
    | nil => exact absurd hsp (pySplit_ne_nil _ _)
    | cons a b => exact ⟨a, b, rfl⟩
  have hL0 : '\t' ∉ L0 := by
    intro hmem
    refine h (mem_of_mem_pyStrip stdout '\t' ?_)
    refine head_pySplit_subset '\n' (pyStrip stdout) '\t' ?_
    rw [hL]
    exact hmem
  have hcr : count_removed L0 = Except.error () := by
    unfold count_removed
    rw [pySplit_of_not_mem '\t' L0 hL0]
  unfold get_all_authors
  rw [hL]
  simp [count_removed_all, hcr]

/-- For a single authorship-summary line `count TAB body` (count not all
whitespace and tab-free, body tab- and newline-free and ending in a
non-whitespace character), get_all_authors returns exactly the records the
fullmatch of `body` yields. -/
theorem get_all_authors_single_line (count body : List Char)
    (hc : ∃ c ∈ count, isPySpace c = false) (hct : '\t' ∉ count) (hcn : '\n' ∉ count)
    (hbt : '\t' ∉ body) (hbn : '\n' ∉ body)
    (hlast : ∃ c t, body.reverse = c :: t ∧ isPySpace c = false) :
    get_all_authors (count ++ '\t' :: body)
      = Except.ok (fullmatchNameEmail body).toList := by
  have hstrip := pyStrip_tab_line count body hc hlast
  have hcn' : '\n' ∉ count.dropWhile isPySpace :=
    fun m => hcn ((List.dropWhile_sublist _).subset m)
  have hct' : '\t' ∉ count.dropWhile isPySpace :=
    fun m => hct ((List.dropWhile_sublist _).subset m)
  have hnl : '\n' ∉ (count.dropWhile isPySpace ++ '\t' :: body) := by
    intro hm
    simp only [List.mem_append, List.mem_cons] at hm
    rcases hm with h | h | h
    · exact hcn' h
    · exact absurd h (by decide)
    · exact hbn h
  have hcr : count_removed (count.dropWhile isPySpace ++ '\t' :: body)
      = Except.ok body := by
    unfold count_removed
    rw [pySplit_append '\t' _ body hct', pySplit_of_not_mem '\t' body hbt]
  unfold get_all_authors
  rw [hstrip, pySplit_of_not_mem '\n' _ hnl]
  simp only [count_removed_all, hcr]
  cases hfm : fullmatchNameEmail body <;> simp [hfm]

/-! ## Claim C1 -/

/-- C1 counterexample: the claim asserts that a line with no tab at all
yields no record and raises no error, but on the single-line stdout
`"5 Jane"` (no tab) get_all_authors raises `IndexError`
(`author.split("\t")[1]` has no index 1), modelled as `Except.error`. -/
theorem C1_counterexample :
    get_all_authors ['5', ' ', 'J', 'a', 'n', 'e'] = Except.error () := by rfl

/-- C1 (amended): for a single authorship-summary line
`count TAB name <email>` (count not entirely whitespace, count/name/email
free of tab and newline, and email not containing the sequence
space-langle, which would shift the greedy match), get_all_authors yields
exactly the pair (name, email); for a line that DOES contain a tab but
whose portion after the first tab fails the pattern `(.*) <(.*)>` (and ends
in a non-whitespace character, so stripping does not alter it),
get_all_authors yields no record and no error; but a stdout with no tab at
all raises an IndexError instead of being silently dropped. -/
theorem C1_parse (count name email rest : List Char)
    (hc : ∃ c ∈ count, isPySpace c = false)
    (hct : '\t' ∉ count) (hcn : '\n' ∉ count)
    (hnt : '\t' ∉ name) (hnn : '\n' ∉ name)
    (het : '\t' ∉ email) (hen : '\n' ∉ email)
    (hsep : hasPairOf ' ' '<' email = false)
    (hrt : '\t' ∉ rest) (hrn : '\n' ∉ rest)
    (hlast : ∃ c t, rest.reverse = c :: t ∧ isPySpace c = false)
    (hfail : fullmatchNameEmail rest = none) :
    get_all_authors (count ++ '\t' :: (name ++ ' ' :: '<' :: (email ++ ['>'])))
      = Except.ok [(name, email)]
    ∧ get_all_authors (count ++ '\t' :: rest) = Except.ok []
    ∧ ∀ stdout : List Char, '\t' ∉ stdout → get_all_authors stdout = Except.error () := by
  refine ⟨?_, ?_, get_all_authors_no_tab⟩
  · have hbt : '\t' ∉ (name ++ ' ' :: '<' :: (email ++ ['>'])) := by
      intro hm
      simp only [List.mem_append, List.mem_cons, List.mem_singleton] at hm
      rcases hm with h | h | h | h | h
      · exact hnt h
      · exact absurd h (by decide)
      · exact absurd h (by decide)
      · exact het h
      · exact absurd h (by decide)
    have hbn : '\n' ∉ (name ++ ' ' :: '<' :: (email ++ ['>'])) := by
      intro hm
      simp only [List.mem_append, List.mem_cons, List.mem_singleton] at hm
      rcases hm with h | h | h | h | h
      · exact hnn h
      · exact absurd h (by decide)
      · exact absurd h (by decide)
      · exact hen h
      · exact absurd h (by decide)
    have hlast2 : ∃ c t, (name ++ ' ' :: '<' :: (email ++ ['>'])).reverse = c :: t
        ∧ isPySpace c = false := by
      refine ⟨'>', email.reverse ++ '<' :: ' ' :: name.reverse, ?_, by decide⟩
      simp [List.reverse_append]
    rw [get_all_authors_single_line _ _ hc hct hcn hbt hbn hlast2,
      fullmatch_pos name email hnn hen hsep]
    rfl
  · rw [get_all_authors_single_line _ _ hc hct hcn hrt hrn hlast, hfail]
    rfl

/-- C1 witness: the amended theorem applied at the concrete line
`"5 TAB J <j>"`, the concrete non-matching line `"5 TAB no"`, and the
concrete tabless stdout `"x"`. -/
theorem C1_parse_witness :
    get_all_authors (['5'] ++ '\t' :: (['J'] ++ ' ' :: '<' :: (['j'] ++ ['>'])))
      = Except.ok [(['J'], ['j'])]
    ∧ get_all_authors (['5'] ++ '\t' :: ['n', 'o']) = Except.ok []
    ∧ get_all_authors ['x'] = Except.error () := by
  have h := C1_parse ['5'] ['J'] ['j'] ['n', 'o'] (by decide) (by decide) (by decide)
      (by decide) (by decide) (by decide) (by decide) (by decide) (by decide) (by decide)
      ⟨'o', ['n'], rfl, by decide⟩ (by decide)
  exact ⟨h.1, h.2.1, h.2.2 ['x'] (by decide)⟩

/-! ## Helper lemmas about the workflow model -/

/-- Any single mutating call leaves origin restored to the handle's origin. -/
theorem apply_op_origin (repo : GitRepo) (ws : WorkingCopy) (op : MutOp) :
    (apply_op repo ws op).origin = some repo.origin := by
  cases op <;> rfl

/-- A nonempty sequence of mutating calls leaves origin restored. -/
theorem apply_ops_origin (repo : GitRepo) :
    ∀ (ops : List MutOp) (ws : WorkingCopy), ops ≠ [] →
      (apply_ops repo ws ops).origin = some repo.origin := by
  intro ops
  induction ops with
  | nil => intro ws h; exact absurd rfl h
  | cons o rest ih =>
    intro ws _
    cases rest with
    | nil => simpa [apply_ops] using apply_op_origin repo ws o
    | cons o2 r2 =>
      have h2 := ih (apply_op repo ws o) (by simp)
      simpa [apply_ops] using h2

/-- handle_names only appends the accepted new names to the audit log; every
other handle field is untouched. -/
theorem handle_names_run_repo :
    ∀ (pairs : List (String × String)) (repo : GitRepo) (ws : WorkingCopy),
      (handle_names_run pairs (repo, ws)).1
        = { repo with names_updated := repo.names_updated ++ pairs.map Prod.snd } := by
  intro pairs
  induction pairs with
  | nil => intro repo ws; simp [handle_names_run]
  | cons p rest ih =>
    intro repo ws
    obtain ⟨old, new⟩ := p
    rw [handle_names_run, ih]
    simp

/-- handle_emails only appends the accepted new emails to the audit log. -/
theorem handle_emails_run_repo :
    ∀ (pairs : List (String × String)) (repo : GitRepo) (ws : WorkingCopy),
      (handle_emails_run pairs (repo, ws)).1
        = { repo with emails_updated := repo.emails_updated ++ pairs.map Prod.snd } := by
  intro pairs
  induction pairs with
  | nil => intro repo ws; simp [handle_emails_run]
  | cons p rest ih =>
    intro repo ws
    obtain ⟨old, new⟩ := p
    rw [handle_emails_run, ih]
    simp

/-- A rename whose old value is absent from the working copy's authorship
leaves the authorship unchanged. -/
theorem update_name_noop (repo : GitRepo) (old v : String) (ws : WorkingCopy)
    (h : ∀ r ∈ ws.authors, r.1 ≠ old) :
    (update_name repo old v ws).authors = ws.authors := by
  show ws.authors.map (fun r => (name_callback old v r.1, r.2)) = ws.authors
  have hpt : ∀ r ∈ ws.authors, (name_callback old v r.1, r.2) = id r := by
    intro r hr
    simp [name_callback, h r hr]
  rw [List.map_congr_left hpt, List.map_id]

/-! ## Claim C2 -/

/-- C2: update_name passes the rewrite tool the rule
`return name if name != b"old" else b"new"`: a name is replaced by `new`
iff it equals `old` byte-for-byte and is untouched otherwise, and the
rewritten history is exactly the pointwise application of that rule;
the analogous contract holds for update_email over the email field. -/
theorem C2_rewrite_rule (repo : GitRepo) (old new : String) (ws : WorkingCopy) :
    (∀ x : String, x = old → name_callback old new x = new)
    ∧ (∀ x : String, x ≠ old → name_callback old new x = x)
    ∧ (update_name repo old new ws).authors
        = ws.authors.map (fun r => (name_callback old new r.1, r.2))
    ∧ (∀ x : String, x = old → email_callback old new x = new)
    ∧ (∀ x : String, x ≠ old → email_callback old new x = x)
    ∧ (update_email repo old new ws).authors
        = ws.authors.map (fun r => (r.1, email_callback old new r.2)) := by
  refine ⟨?_, ?_, rfl, ?_, ?_, rfl⟩ <;> intro x h <;>
    simp [name_callback, email_callback, h]

/-- C2 witness: the rule at concrete values. -/
theorem C2_rewrite_rule_witness :
    name_callback ("Alice") ("Carol") ("Alice") = ("Carol")
    ∧ name_callback ("Alice") ("Carol") ("Bob") = ("Bob")
    ∧ email_callback ("Alice") ("Carol") ("b@x") = ("b@x") := by
  have h := C2_rewrite_rule (GitRepo.make ("r") ("u")) ("Alice") ("Carol") ⟨[], none⟩
  exact ⟨h.1 ("Alice") rfl, h.2.1 ("Bob") (by decide), h.2.2.2.2.1 ("b@x") (by decide)⟩

/-! ## Claim C3 -/

/-- C3: after any sequence of rename/re-email operations the working copy's
origin equals the handle's origin, because every mutating call re-sets
origin right after invoking the rewrite tool; the origin observed at push
time equals the handle's origin as well. -/
theorem C3_origin_restored (repo : GitRepo) (ws : WorkingCopy) (op : MutOp)
    (ops : List MutOp) (h : ops ≠ []) :
    (apply_op repo ws op).origin = some repo.origin
    ∧ (apply_ops repo ws ops).origin = some repo.origin
    ∧ (push repo (apply_ops repo ws ops)).origin = some repo.origin := by
  exact ⟨apply_op_origin repo ws op, apply_ops_origin repo ops ws h, rfl⟩

/-- C3 witness: a rename followed by a re-email on a concrete handle. -/
theorem C3_origin_restored_witness :
    (apply_op (GitRepo.make ("r") ("git@host:r")) ⟨[(("A"), ("a@x"))], none⟩
        (MutOp.rename ("A") ("B"))).origin = some ("git@host:r")
    ∧ (apply_ops (GitRepo.make ("r") ("git@host:r")) ⟨[(("A"), ("a@x"))], none⟩
        [MutOp.rename ("A") ("B"), MutOp.reemail ("a@x") ("b@x")]).origin
        = some ("git@host:r")
    ∧ (push (GitRepo.make ("r") ("git@host:r"))
        (apply_ops (GitRepo.make ("r") ("git@host:r")) ⟨[(("A"), ("a@x"))], none⟩
          [MutOp.rename ("A") ("B"), MutOp.reemail ("a@x") ("b@x")])).origin
        = some ("git@host:r") :=
  C3_origin_restored (GitRepo.make ("r") ("git@host:r")) ⟨[(("A"), ("a@x"))], none⟩
    (MutOp.rename ("A") ("B"))
    [MutOp.rename ("A") ("B"), MutOp.reemail ("a@x") ("b@x")] (by simp)

/-! ## Claim C4 -/

/-- C4: for a sequence of N accepted name changes in single-repository mode
the handle's names_updated log holds exactly the N supplied new values in
order, both relative to any starting log and for the whole update_repo
workflow starting from a fresh handle; the same holds for emails_updated
over accepted email changes. -/
theorem C4_audit_log (namePairs emailPairs : List (String × String))
    (repo : GitRepo) (ws : WorkingCopy) (name url : String)
    (history : List (String × String)) (doPush : Bool) :
    (handle_names_run namePairs (repo, ws)).1.names_updated
      = repo.names_updated ++ namePairs.map Prod.snd
    ∧ (handle_emails_run emailPairs (repo, ws)).1.emails_updated
      = repo.emails_updated ++ emailPairs.map Prod.snd
    ∧ (update_repo_run name url history namePairs emailPairs doPush).1.names_updated
      = namePairs.map Prod.snd
    ∧ (update_repo_run name url history namePairs emailPairs doPush).1.emails_updated
      = emailPairs.map Prod.snd := by
  refine ⟨?_, ?_, ?_, ?_⟩
  · rw [handle_names_run_repo]
  · rw [handle_emails_run_repo]
  · show (handle_emails_run emailPairs (handle_names_run namePairs _)).1.names_updated = _
    rw [show handle_names_run namePairs (GitRepo.make name url, clone (GitRepo.make name url) history)
        = ((handle_names_run namePairs (GitRepo.make name url, clone (GitRepo.make name url) history)).1,
           (handle_names_run namePairs (GitRepo.make name url, clone (GitRepo.make name url) history)).2) from rfl,
      handle_emails_run_repo, handle_names_run_repo]
    simp [GitRepo.make]
  · show (handle_emails_run emailPairs (handle_names_run namePairs _)).1.emails_updated = _
    rw [show handle_names_run namePairs (GitRepo.make name url, clone (GitRepo.make name url) history)
        = ((handle_names_run namePairs (GitRepo.make name url, clone (GitRepo.make name url) history)).1,
           (handle_names_run namePairs (GitRepo.make name url, clone (GitRepo.make name url) history)).2) from rfl,
      handle_emails_run_repo, handle_names_run_repo]
    simp [GitRepo.make]

/-! ## Claim C5 -/

/-- C5: renaming oldName to newName when oldName is absent from current
authorship leaves the authorship list unchanged, in single-repository mode
and for every repository of all-repositories mode, because the rewrite rule
is the identity on every name different from oldName. -/
theorem C5_noop (repo : GitRepo) (old v : String) (ws : WorkingCopy)
    (rs : List (GitRepo × WorkingCopy)) :
    ((∀ r ∈ ws.authors, r.1 ≠ old) → (update_name repo old v ws).authors = ws.authors)
    ∧ ((∀ p ∈ rs, ∀ r ∈ p.2.authors, r.1 ≠ old) →
        (update_all_repos_step (Selection.name old) v rs).map (fun p => p.2.authors)
          = rs.map (fun p => p.2.authors))
    ∧ (∀ x : String, x ≠ old → name_callback old v x = x) := by
  refine ⟨update_name_noop repo old v ws, ?_, ?_⟩
  · intro h
    show (rs.map (fun p => (p.1, update_name p.1 old v p.2))).map (fun p => p.2.authors)
      = rs.map (fun p => p.2.authors)
    rw [List.map_map]
    refine List.map_congr_left ?_
    intro p hp
    exact update_name_noop p.1 old v p.2 (h p hp)
  · intro x hx
    simp [name_callback, hx]

/-- C5 witness: a rename of an absent name on a concrete repository and on
a concrete one-element batch. -/
theorem C5_noop_witness :
    (update_name (GitRepo.make ("r") ("u")) ("A") ("C") ⟨[(("B"), ("b@x"))], none⟩).authors
      = [(("B"), ("b@x"))]
    ∧ (update_all_repos_step (Selection.name ("A")) ("C")
        [(GitRepo.make ("r") ("u"), ⟨[(("B"), ("b@x"))], none⟩)]).map (fun p => p.2.authors)
      = [[(("B"), ("b@x"))]] := by
  have h := C5_noop (GitRepo.make ("r") ("u")) ("A") ("C") ⟨[(("B"), ("b@x"))], none⟩
    [(GitRepo.make ("r") ("u"), ⟨[(("B"), ("b@x"))], none⟩)]
  refine ⟨h.1 (by decide), ?_⟩
  have h2 := h.2.1 (by decide)
  simpa using h2

/-! ## Claim C6 -/

/-- C6: every iteration of the all-repositories loop unions the identity
records of all cloned repositories into a set of distinct names and a set
of distinct emails (no duplicates; membership is exactly occurrence in some
repository); a chosen rename (resp. re-email) with replacement value v is
applied to every cloned repository, a no-op where the old value is absent;
and after a non-quit selection the loop recurses on the updated
repositories (recomputing the union for the next menu). -/
theorem C6_batch_union (wss : List WorkingCopy) (rs : List (GitRepo × WorkingCopy))
    (nm em n e v : String) (sels : List Selection) (vals : List String) :
    (collect_names wss).Nodup
    ∧ (collect_emails wss).Nodup
    ∧ (nm ∈ collect_names wss ↔ ∃ ws ∈ wss, ∃ r ∈ ws.authors, r.1 = nm)
    ∧ (em ∈ collect_emails wss ↔ ∃ ws ∈ wss, ∃ r ∈ ws.authors, r.2 = em)
    ∧ List.Forall₂ (fun p q => q.1 = p.1
        ∧ q.2.authors = p.2.authors.map (fun r => (name_callback n v r.1, r.2))
        ∧ ((∀ r ∈ p.2.authors, r.1 ≠ n) → q.2.authors = p.2.authors))
        rs (update_all_repos_step (Selection.name n) v rs)
    ∧ List.Forall₂ (fun p q => q.1 = p.1
        ∧ q.2.authors = p.2.authors.map (fun r => (r.1, email_callback e v r.2)))
        rs (update_all_repos_step (Selection.email e) v rs)
    ∧ update_all_repos_loop (Selection.name n :: sels) vals rs
        = update_all_repos_loop sels (vals.drop 1)
            (update_all_repos_step (Selection.name n) (vals.headD "") rs) := by
  refine ⟨List.nodup_dedup _, List.nodup_dedup _, ?_, ?_, ?_, ?_, rfl⟩
  · simp only [collect_names, List.mem_dedup, List.mem_flatMap, List.mem_map]
  · simp only [collect_emails, List.mem_dedup, List.mem_flatMap, List.mem_map]
  · show List.Forall₂ _ rs (rs.map (fun p => (p.1, update_name p.1 n v p.2)))
    rw [List.forall₂_map_right_iff]
    rw [List.forall₂_same]
    intro p _
    exact ⟨rfl, rfl, update_name_noop p.1 n v p.2⟩
  · show List.Forall₂ _ rs (rs.map (fun p => (p.1, update_email p.1 e v p.2)))
    rw [List.forall₂_map_right_iff]
    rw [List.forall₂_same]
    intro p _
    exact ⟨rfl, rfl⟩

/-- C6 witness: the union, application and recursion parts at a concrete
two-repository state. -/
theorem C6_batch_union_witness :
    (collect_names [⟨[(("A"), ("a@x"))], none⟩, ⟨[(("B"), ("b@x"))], none⟩]).Nodup
    ∧ (("A") ∈ collect_names [⟨[(("A"), ("a@x"))], none⟩, ⟨[(("B"), ("b@x"))], none⟩])
    ∧ update_all_repos_loop [Selection.name ("A"), Selection.quit] [("C")]
        [(GitRepo.make ("r") ("u"), ⟨[(("A"), ("a@x"))], none⟩)]
      = update_all_repos_loop [Selection.quit] []
          (update_all_repos_step (Selection.name ("A")) ("C")
            [(GitRepo.make ("r") ("u"), ⟨[(("A"), ("a@x"))], none⟩)]) := by
  have h := C6_batch_union [⟨[(("A"), ("a@x"))], none⟩, ⟨[(("B"), ("b@x"))], none⟩]
    [(GitRepo.make ("r") ("u"), ⟨[(("A"), ("a@x"))], none⟩)]
    ("A") ("a@x") ("A") ("a@x") ("C") [Selection.quit] [("C")]
  refine ⟨h.1, ?_, h.2.2.2.2.2.2⟩
  refine (h.2.2.1).mpr ⟨⟨[(("A"), ("a@x"))], none⟩, by simp, (("A"), ("a@x")), by simp, rfl⟩

/-! ## Claim C7 -/

/-- C7 counterexample: with an empty repository list (a user with no
repositories), selecting the quit sentinel does not terminate the loop:
`done = True` is only assigned inside `for repo in repos:`, which runs zero
iterations, so the menu is redisplayed; even two successive quit selections
leave the loop demanding more input (modelled as `none`). -/
theorem C7_counterexample :
    update_all_repos_loop [Selection.quit, Selection.quit] [] [] = none := rfl

/-- C7 (amended): provided at least one repository was cloned, selecting
the quit sentinel terminates the reconciliation loop immediately: the
repositories are returned unchanged and the replacement-value input stream
is not consumed (no replacement prompt, no further rename/re-email call);
with zero cloned repositories the loop instead redisplays the menu forever. -/
theorem C7_quit (sels : List Selection) (vals : List String)
    (rs : List (GitRepo × WorkingCopy)) (h : rs ≠ []) :
    update_all_repos_loop (Selection.quit :: sels) vals rs = some (rs, vals) := by
  have hne : rs.isEmpty = false := by
    cases rs with
    | nil => exact absurd rfl h
    | cons a b => rfl
  simp [update_all_repos_loop, hne]

/-- C7 witness: quitting first on a concrete one-repository state. -/
theorem C7_quit_witness :
    update_all_repos_loop [Selection.quit] [("v")]
        [(GitRepo.make ("r") ("u"), ⟨[], none⟩)]
      = some ([(GitRepo.make ("r") ("u"), ⟨[], none⟩)], [("v")]) :=
  C7_quit [] [("v")] [(GitRepo.make ("r") ("u"), ⟨[], none⟩)] (by simp)

/-! ## Claim C8 -/

/-- C8: a handle's origin is set at construction to the clone URL and no
workflow operation changes it afterwards: the confirm-loop passes (which
clone, list authors, rename, re-email and append to the audit logs) and the
whole single-repository workflow including the final push leave the
handle's origin equal to the construction-time clone URL. -/
theorem C8_origin_frame (name url : String) (history : List (String × String))
    (namePairs emailPairs pairs : List (String × String)) (doPush : Bool)
    (repo : GitRepo) (ws : WorkingCopy) :
    (GitRepo.make name url).origin = url
    ∧ (handle_names_run pairs (repo, ws)).1.origin = repo.origin
    ∧ (handle_emails_run pairs (repo, ws)).1.origin = repo.origin
    ∧ (update_repo_run name url history namePairs emailPairs doPush).1.origin = url := by
  refine ⟨rfl, ?_, ?_, ?_⟩
  · rw [handle_names_run_repo]
  · rw [handle_emails_run_repo]
  · show (handle_emails_run emailPairs (handle_names_run namePairs _)).1.origin = url
    rw [show handle_names_run namePairs (GitRepo.make name url, clone (GitRepo.make name url) history)
        = ((handle_names_run namePairs (GitRepo.make name url, clone (GitRepo.make name url) history)).1,
           (handle_names_run namePairs (GitRepo.make name url, clone (GitRepo.make name url) history)).2) from rfl,
      handle_emails_run_repo, handle_names_run_repo]
    rfl

/-! ## Claim C9 -/

/-- C9 counterexample: the code enforces no non-emptiness: a handle
constructed exactly as single-repository mode does it (`GitRepo(name,
clone_url)` with the raw operator input) has an EMPTY originURL when the
operator enters an empty clone URL, refuting the claimed invariant. -/
theorem C9_counterexample : (GitRepo.make ("demo") ("")).origin = ("") := rfl

/-- C9 (amended): a handle's originURL equals the supplied clone URL
(stripped, for catalog-built handles), so it is non-empty exactly when that
input is non-empty - the code itself enforces no non-emptiness - and the
workflow's handle mutations (the audit-log appends of the two confirm
loops) preserve whatever origin the handle was constructed with, hence
preserve its non-emptiness for the handle's lifetime. -/
theorem C9_origin_nonempty (name url : String) (entries : List (String × String))
    (repo : GitRepo) (ws : WorkingCopy) (pairs : List (String × String))
    (hurl : url ≠ "") (hrepo : repo.origin ≠ "") :
    (GitRepo.make name url).origin ≠ ""
    ∧ List.Forall₂ (fun e r => r.origin = pyStripS e.2) entries (get_repo_list entries)
    ∧ (handle_names_run pairs (repo, ws)).1.origin ≠ ""
    ∧ (handle_emails_run pairs (repo, ws)).1.origin ≠ "" := by
  refine ⟨hurl, ?_, ?_, ?_⟩
  · rw [get_repo_list, List.forall₂_map_right_iff, List.forall₂_same]
    intro e _
    rfl
  · rw [handle_names_run_repo]
    exact hrepo
  · rw [handle_emails_run_repo]
    exact hrepo

/-- C9 witness: a concrete non-blank URL and a concrete catalog entry. -/
theorem C9_origin_nonempty_witness :
    (GitRepo.make ("demo") ("git@host:demo.git")).origin ≠ ""
    ∧ List.Forall₂ (fun (e : String × String) r => r.origin = pyStripS e.2)
        [(("demo"), (" git@host:demo.git "))]
        (get_repo_list [(("demo"), (" git@host:demo.git "))])
    ∧ (handle_names_run [(("A"), ("B"))]
        (GitRepo.make ("demo") ("git@host:demo.git"), ⟨[], none⟩)).1.origin ≠ "" := by
  have h := C9_origin_nonempty ("demo") ("git@host:demo.git")
    [(("demo"), (" git@host:demo.git "))]
    (GitRepo.make ("demo") ("git@host:demo.git")) ⟨[], none⟩ [(("A"), ("B"))]
    (by decide) (by decide)
  exact ⟨h.1, h.2.1, h.2.2.1⟩

/-! ## Claim C10 -/

/-- Looking a number up among the keys `i, i+1, ..., i+n-1` of the zipped
range fails whenever the number is outside that interval. -/
theorem lookup_zip_range_none (labels : List String) :
    ∀ (i k : Nat), (k < i ∨ i + labels.length ≤ k) →
      List.lookup k (List.zip (List.range' i labels.length 1) labels) = none := by
  induction labels with
  | nil => intro i k _; rfl
  | cons l ls ih =>
    intro i k hk
    have hkne : (k == i) = false := by
      have : k ≠ i := by
        rcases hk with h | h
        · omega
        · simp only [List.length_cons] at h
          omega
      simp [this]
    have hnext : k < i + 1 ∨ (i + 1) + ls.length ≤ k := by
      rcases hk with h | h
      · left; omega
      · right; simp only [List.length_cons] at h; omega
    simp only [List.length_cons, List.range'_succ, List.zip_cons_cons, List.lookup,
      hkne]
    exact ih (i + 1) k hnext

/-- C10: the re-prompt loop of user_prompt terminates exactly when the
input is a digit string (the condition `answer not in option_count`
compares a str with ints and never holds, so only `isnumeric` matters): a
non-numeric input re-prompts, a numeric input ends the loop regardless of
its value and of any further queued input, and a numeric input outside
1..len(options) then fails with a KeyError on the `prompt_options` lookup
instead of re-prompting or returning an option. -/
theorem C10_prompt (T : Type) (options : List (String × T)) (a : List Char)
    (rest : List (List Char)) :
    (isnumeric a = false → user_prompt options (a :: rest) = user_prompt options rest)
    ∧ (isnumeric a = true → user_prompt options (a :: rest) = user_prompt options [a])
    ∧ (isnumeric a = true → (pyInt a = 0 ∨ options.length < pyInt a) →
        user_prompt options (a :: rest) = PromptOutcome.keyError) := by
    refine ⟨?_, ?_, ?_⟩
    · intro h
      simp [user_prompt, h]
    · intro h
      simp [user_prompt, h]
    · intro h hk
      have hlook : List.lookup (pyInt a)
          (prompt_options (options.map Prod.fst)) = none := by
        rw [prompt_options]
        refine lookup_zip_range_none (options.map Prod.fst) 1 (pyInt a) ?_
        rcases hk with h0 | hgt
        · left; omega
        · right; simp only [List.length_map]; omega
      simp [user_prompt, h, hlook]

/-- C10 witness: a two-option menu; the non-numeric input defers to the
re-prompt, and the out-of-range numeric input 5 produces a KeyError. -/
theorem C10_prompt_witness :
    user_prompt [(("A"), 1), (("B"), 2)] [['x'], ['1']]
      = user_prompt [(("A"), 1), (("B"), 2)] [['1']]
    ∧ user_prompt [(("A"), 1), (("B"), 2)] [['5'], ['1']] = PromptOutcome.keyError :=
  ⟨(C10_prompt Nat [(("A"), 1), (("B"), 2)] ['x'] [['1']]).1 (by decide),
   (C10_prompt Nat [(("A"), 1), (("B"), 2)] ['5'] [['1']]).2.2 (by decide)
     (by decide)⟩
